import Mathlib

/-!
Verification of the early-boot memory subsystem of the `aos` kernel.

The development shallowly embeds the Rust sources:
  * `src/efi.rs` and `src/efi/structures.rs` — EFI memory-type
    classification, the global system-table registry, the console output
    helper, and the free-memory accumulation of `exit_boot_services`;
  * `src/memory/utils/mod.rs` — `align_up` / `align_down`;
  * `src/memory/paging/page.rs` — `Page`, `PageRange`,
    `PageRangeInclusive` and their iterators.

Machine integers (`u64`, `u32`, `usize`) are embedded as `Nat` with an
explicit `% 2 ^ 64` wherever the Rust code can wrap.  A Rust `panic!`
(or an out-of-bounds index) is embedded as `Option.none` / an `Except`
error, so every function stays executable and decidable on concrete
inputs.
-/

/-- The modulus of 64-bit machine arithmetic. -/
def U64 : Nat := 2 ^ 64

/-- EFI page size, `EFI_PAGE_SIZE` in `src/efi.rs`. -/
def EFI_PAGE_SIZE : Nat := 4096

/-- The error enumeration of `src/efi/structures.rs` (`enum Error`).
The payloads of the status-carrying variants are the raw 64-bit status. -/
inductive EfiError where
  | NoValidMemoryArea : EfiError
  | CouldntAccessSystemTable : EfiError
  | CouldntRegisterSystemTable : EfiError
  | CouldntExitBootService : Nat → EfiError
  | CouldntGetMemoryMap : Nat → EfiError
  | Unknown : Nat → EfiError
deriving DecidableEq, Repr

/-- The fifteen firmware memory-type categories
(`enum EfiMemoryType` in `src/efi/structures.rs`). -/
inductive EfiMemoryType where
  | Reserved
  | LoaderCode
  | LoaderData
  | BootServicesCode
  | BootServicesData
  | RuntimeServicesCode
  | RuntimeServicesData
  | Conventional
  | Unusable
  | AcpiReclaim
  | AcpiNonVolatile
  | Mmio
  | MmioPortSpace
  | PalCode
  | PersistentMemory
deriving DecidableEq, Repr

/-- The numeric discriminant each variant of `EfiMemoryType` is declared
with in the Rust source (`Reserved = 0`, `LoaderCode = 1`,
`LoaderData = 2`, ...). -/
def EfiMemoryType.toCode : EfiMemoryType → Nat
  | .Reserved => 0
  | .LoaderCode => 1
  | .LoaderData => 2
  | .BootServicesCode => 3
  | .BootServicesData => 4
  | .RuntimeServicesCode => 5
  | .RuntimeServicesData => 6
  | .Conventional => 7
  | .Unusable => 8
  | .AcpiReclaim => 9
  | .AcpiNonVolatile => 10
  | .Mmio => 11
  | .MmioPortSpace => 12
  | .PalCode => 13
  | .PersistentMemory => 14

/-- The conversion `impl From<u32> for EfiMemoryType`
(`src/efi/structures.rs`, lines 247-271; identical copy in
`src/efi.rs`).  The `_ => panic!(..)` arm is embedded as `none`.
The source really maps `2 => LoaderCode` (not `LoaderData`). -/
def EfiMemoryType.fromCode (v : Nat) : Option EfiMemoryType :=
  match v with
  | 0 => some .Reserved
  | 1 => some .LoaderCode
  | 2 => some .LoaderCode
  | 3 => some .BootServicesCode
  | 4 => some .BootServicesData
  | 5 => some .RuntimeServicesCode
  | 6 => some .RuntimeServicesData
  | 7 => some .Conventional
  | 8 => some .Unusable
  | 9 => some .AcpiReclaim
  | 10 => some .AcpiNonVolatile
  | 11 => some .Mmio
  | 12 => some .MmioPortSpace
  | 13 => some .PalCode
  | 14 => some .PersistentMemory
  | _ => none

/-- Availability predicate
`EfiMemoryType::available_post_exit_boot_services`
(`src/efi/structures.rs`, lines 273-283; the `available_post_brexit`
copy in `src/efi.rs` has the same match). -/
def EfiMemoryType.available_post_brexit : EfiMemoryType → Bool
  | .BootServicesCode => true
  | .BootServicesData => true
  | .Conventional => true
  | .PersistentMemory => true
  | _ => false

/-!  The global registry `EFI_SYSTEM_TABLE : AtomicPtr<EfiSystemTable>`
is embedded as an explicitly passed state of type `Nat`: the raw pointer
value, with `0` standing for the null pointer (the registry's empty
state).  Each operation takes the state and returns the new state. -/

/-- The function `register_system_table` of `src/efi/structures.rs`
(lines 23-31): a compare-and-exchange of null against the new pointer;
on failure the state is unchanged and
`Error::CouldntRegisterSystemTable` is returned. -/
def register_system_table (st ptr : Nat) : Except EfiError Unit × Nat :=
  if st = 0 then (.ok (), ptr) else (.error .CouldntRegisterSystemTable, st)

/-- The function `load_system_table` of `src/efi/structures.rs`
(lines 285-295): errors with `CouldntAccessSystemTable` on the null
pointer, otherwise returns the registered pointer. -/
def load_system_table (st : Nat) : Except EfiError Nat :=
  if st = 0 then .error .CouldntAccessSystemTable else .ok st

/-- The function `destroy_system_table` of `src/efi/structures.rs`
(lines 297-299): unconditionally stores null. -/
def destroy_system_table (_st : Nat) : Nat := 0

/-- C1: the claim says raw code 2 converts to the loader-data category
(numeric value 2).  The source instead maps 2 to `LoaderCode`, the
category whose own declared discriminant is 1, while the enum declares
`LoaderData = 2`: the conversion contradicts the enum's own
declaration.  Codes 15 and above do fault as claimed. -/
theorem efiMemoryType_fromCode_loader_data_bug :
    EfiMemoryType.fromCode 2 = some EfiMemoryType.LoaderCode ∧
    EfiMemoryType.toCode EfiMemoryType.LoaderCode = 1 ∧
    EfiMemoryType.toCode EfiMemoryType.LoaderData = 2 ∧
    EfiMemoryType.fromCode 2 ≠ some EfiMemoryType.LoaderData ∧
    EfiMemoryType.fromCode 15 = none := by
  refine ⟨rfl, rfl, rfl, ?_, rfl⟩
  decide

/-- C3: `available_post_brexit` is true for exactly the four categories
boot-services code, boot-services data, conventional and persistent
memory, and false for each of the other eleven. -/
theorem available_post_brexit_spec (t : EfiMemoryType) :
    t.available_post_brexit = true ↔
      (t = .BootServicesCode ∨ t = .BootServicesData ∨
       t = .Conventional ∨ t = .PersistentMemory) := by
  cases t <;> simp [EfiMemoryType.available_post_brexit]

/-- C4: from the empty registry the first `register` succeeds and stores
the pointer; a second `register` before any `destroy` fails with
`CouldntRegisterSystemTable` and leaves the stored pointer unchanged;
after `destroy` a fresh `register` succeeds again. -/
theorem register_system_table_lifecycle (p p2 : Nat) (hp : p ≠ 0) :
    register_system_table 0 p = (.ok (), p) ∧
    register_system_table p p2 = (.error .CouldntRegisterSystemTable, p) ∧
    register_system_table (destroy_system_table p) p2 = (.ok (), p2) := by
  refine ⟨rfl, ?_, rfl⟩
  simp [register_system_table, hp]

theorem register_system_table_lifecycle_witness :
    (5 : Nat) ≠ 0 ∧
    (register_system_table 0 5 = (.ok (), 5) ∧
     register_system_table 5 7 = (.error .CouldntRegisterSystemTable, 5) ∧
     register_system_table (destroy_system_table 5) 7 = (.ok (), 7)) :=
  ⟨by decide, register_system_table_lifecycle 5 7 (by decide)⟩

/-- C5: `load` returns the registered pointer when one is registered,
and fails with `CouldntAccessSystemTable` exactly when nothing is
registered — both on the initial empty state and after `destroy`. -/
theorem load_system_table_spec (s s2 : Nat) (hs : s ≠ 0) :
    load_system_table s = .ok s ∧
    load_system_table 0 = .error .CouldntAccessSystemTable ∧
    load_system_table (destroy_system_table s2) =
      .error .CouldntAccessSystemTable := by
  refine ⟨?_, rfl, rfl⟩
  simp [load_system_table, hs]

theorem load_system_table_spec_witness :
    (5 : Nat) ≠ 0 ∧
    (load_system_table 5 = .ok 5 ∧
     load_system_table 0 = .error .CouldntAccessSystemTable ∧
     load_system_table (destroy_system_table 9) =
       .error .CouldntAccessSystemTable) :=
  ⟨by decide, load_system_table_spec 5 9 (by decide)⟩

/-- One entry of the firmware memory map
(`struct EfiMemoryDescriptor`, `src/efi/structures.rs` lines 195-203).
The Rust field `attribute` is named `attrBits` here because `attribute`
is a Lean keyword. -/
structure EfiMemoryDescriptor where
  typ : Nat
  physical_start : Nat
  virtual_start : Nat
  number_of_pages : Nat
  attrBits : Nat
deriving DecidableEq, Repr

/-- The byte offsets visited by the walk
`for offset in (0..mmap_size).step_by(desc_size)` in
`exit_boot_services` (`src/efi.rs` line 327): every multiple of
`descSize` below `mmapSize`, in order. -/
def stepByOffsets (mmapSize descSize : Nat) : List Nat :=
  (List.range ((mmapSize + descSize - 1) / descSize)).map (· * descSize)

/-- One iteration of the classification loop of `exit_boot_services`
(`src/efi.rs` lines 327-340): convert the descriptor's raw type
(`none` embeds the `panic!` of the conversion on an unknown code) and,
when available after exit, accumulate `number_of_pages * EFI_PAGE_SIZE`
with 64-bit wrapping. -/
def classifyDescStep (mem : Nat → EfiMemoryDescriptor) (acc off : Nat) :
    Option Nat :=
  match EfiMemoryType.fromCode (mem off).typ with
  | none => none
  | some t =>
    if t.available_post_brexit then
      some ((acc + (mem off).number_of_pages * EFI_PAGE_SIZE % U64) % U64)
    else
      some acc

/-- The free-memory accumulation of `exit_boot_services`
(`src/efi.rs` lines 300-352), abstracted over the descriptor buffer:
`mem off` is the descriptor record read (via `read_unaligned`) at byte
offset `off` of the buffer.  `descSize = 0` embeds the `step_by(0)`
panic. -/
def efi_free_memory (mem : Nat → EfiMemoryDescriptor)
    (mmapSize descSize : Nat) : Option Nat :=
  if descSize = 0 then none
  else (stepByOffsets mmapSize descSize).foldlM (classifyDescStep mem) 0

/-- Availability of the descriptor at a given offset, as a Bool on raw
codes (false also on unknown codes, which the walk treats as a fault
anyway). -/
def specAvailableDesc (mem : Nat → EfiMemoryDescriptor) (off : Nat) :
    Bool :=
  ((EfiMemoryType.fromCode (mem off).typ).map
    EfiMemoryType.available_post_brexit).getD false

theorem fromCode_isSome_of_lt {c : Nat} (h : c < 15) :
    (EfiMemoryType.fromCode c).isSome := by
  revert h
  revert c
  decide

theorem foldlM_classify (mem : Nat → EfiMemoryDescriptor)
    (l : List Nat) (acc : Nat) (hacc : acc < U64)
    (hk : ∀ off ∈ l, (EfiMemoryType.fromCode (mem off).typ).isSome) :
    l.foldlM (classifyDescStep mem) acc =
      some ((acc +
        ((l.filter (specAvailableDesc mem)).map
          (fun off => (mem off).number_of_pages * EFI_PAGE_SIZE)).sum)
        % U64) := by
  induction l generalizing acc with
  | nil =>
    simp [List.foldlM_nil, Nat.mod_eq_of_lt hacc]
  | cons off l ih =>
    have hoff : (EfiMemoryType.fromCode (mem off).typ).isSome :=
      hk off (by simp)
    obtain ⟨t, ht⟩ := Option.isSome_iff_exists.mp hoff
    have hk' : ∀ o ∈ l, (EfiMemoryType.fromCode (mem o).typ).isSome :=
      fun o ho => hk o (by simp [ho])
    rw [List.foldlM_cons]
    by_cases hav : t.available_post_brexit = true
    · have hstep : classifyDescStep mem acc off =
          some ((acc + (mem off).number_of_pages * EFI_PAGE_SIZE % U64)
            % U64) := by
        simp [classifyDescStep, ht, hav]
      rw [hstep]
      have hU : 0 < U64 := by decide
      have hacc' :
          (acc + (mem off).number_of_pages * EFI_PAGE_SIZE % U64) % U64
            < U64 := Nat.mod_lt _ hU
      have := ih _ hacc' hk'
      simp only [Option.bind_eq_bind, Option.some_bind] at this ⊢
      rw [this]
      have hfil : specAvailableDesc mem off = true := by
        simp [specAvailableDesc, ht, hav]
      rw [List.filter_cons_of_pos hfil, List.map_cons, List.sum_cons]
      congr 1
      set x := (mem off).number_of_pages * EFI_PAGE_SIZE with hx
      set s := ((l.filter (specAvailableDesc mem)).map
        (fun o => (mem o).number_of_pages * EFI_PAGE_SIZE)).sum with hs
      calc ((acc + x % U64) % U64 + s) % U64
          = (acc + x % U64 + s) % U64 := Nat.mod_add_mod _ _ _
        _ = (acc + s + x % U64) % U64 := by ring_nf
        _ = (acc + s + x) % U64 := Nat.add_mod_mod _ _ _
        _ = (acc + (x + s)) % U64 := by ring_nf
    · have hstep : classifyDescStep mem acc off = some acc := by
        simp [classifyDescStep, ht, hav]
      rw [hstep]
      have hfil : ¬ specAvailableDesc mem off = true := by
        simp [specAvailableDesc, ht, hav]
      simp only [Option.bind_eq_bind, Option.some_bind]
      rw [ih _ hacc hk', List.filter_cons_of_neg hfil]

/-- C2: the classifier walks the buffer at stride `descSize` (the
firmware-reported descriptor size) and the computed free-memory total
is the sum of `number_of_pages * EFI_PAGE_SIZE` over exactly the
visited descriptors whose availability predicate is true. -/
theorem exit_boot_services_free_memory (mem : Nat → EfiMemoryDescriptor)
    (mmapSize descSize : Nat) (hd : 0 < descSize)
    (hknown : ∀ off ∈ stepByOffsets mmapSize descSize,
      (mem off).typ < 15) :
    efi_free_memory mem mmapSize descSize =
      some ((((stepByOffsets mmapSize descSize).filter
          (specAvailableDesc mem)).map
        (fun off => (mem off).number_of_pages * EFI_PAGE_SIZE)).sum
        % U64) := by
  have hd0 : descSize ≠ 0 := Nat.pos_iff_ne_zero.mp hd
  rw [efi_free_memory, if_neg hd0]
  rw [foldlM_classify mem _ 0 (by decide)
    (fun off ho => fromCode_isSome_of_lt (hknown off ho))]
  simp

/-- Synthetic three-descriptor memory map for the C2 witness:
a conventional region of 10 pages at offset 0, a boot-services-data
region of 5 pages at offset 48, a reserved region of 2 pages at every
other offset (in particular 96), walked at a reported stride of 48
bytes. -/
def c2SyntheticMap : Nat → EfiMemoryDescriptor := fun off =>
  if off = 0 then ⟨7, 0, 0, 10, 0⟩
  else if off = 48 then ⟨4, 40960, 0, 5, 0⟩
  else ⟨0, 61440, 0, 2, 0⟩

theorem exit_boot_services_free_memory_witness :
    efi_free_memory c2SyntheticMap 144 48 = some 61440 := by
  have h := exit_boot_services_free_memory c2SyntheticMap 144 48
    (by decide) (by decide)
  rw [h]
  rfl

/-!  The address kernel, `src/memory/utils/mod.rs`.  Addresses and
alignments are `u64`; `u64::is_power_of_two` is the exactly-one-bit-set
test, and the failing `assert!` of `align_up` / `align_down` on a
non-power-of-two alignment is embedded as `none`. -/

/-- The `u64::is_power_of_two` test used by the alignment asserts. -/
def u64_is_power_of_two (n : Nat) : Bool :=
  n != 0 && (n &&& (n - 1) == 0)

/-- Body of `align_down` (`src/memory/utils/mod.rs` lines 34-42) after
the assert: `addr & !(align - 1)`, with the 64-bit complement written
out as `(2^64 - 1) - (align - 1)`. -/
def align_down_raw (addr align : Nat) : Nat :=
  addr &&& ((U64 - 1) - (align - 1))

/-- The function `align_down` with its power-of-two assert. -/
def align_down (addr align : Nat) : Option Nat :=
  if u64_is_power_of_two align then some (align_down_raw addr align)
  else none

/-- Body of `align_up` (`src/memory/utils/mod.rs` lines 16-29) after
the assert: return `addr` when already aligned, else
`(addr | align_mask) + 1` with 64-bit wraparound. -/
def align_up_raw (addr align : Nat) : Nat :=
  let align_mask := align - 1
  if addr &&& align_mask == 0 then addr
  else ((addr ||| align_mask) + 1) % U64

/-- The function `align_up` with its power-of-two assert. -/
def align_up (addr align : Nat) : Option Nat :=
  if u64_is_power_of_two align then some (align_up_raw addr align)
  else none

theorem and_two_pow_sub_one_eq_mod (x k : Nat) :
    x &&& (2 ^ k - 1) = x % 2 ^ k := by
  apply Nat.eq_of_testBit_eq
  intro i
  rw [Nat.testBit_and, Nat.testBit_two_pow_sub_one, Nat.testBit_mod_two_pow]
  by_cases h : i < k <;> simp [h]

theorem two_pow_and_pred (k : Nat) : 2 ^ k &&& (2 ^ k - 1) = 0 := by
  rw [and_two_pow_sub_one_eq_mod, Nat.mod_self]

theorem u64_is_power_of_two_two_pow (k : Nat) :
    u64_is_power_of_two (2 ^ k) = true := by
  have h1 : (2 : Nat) ^ k ≠ 0 := Nat.pos_iff_ne_zero.mp (Nat.two_pow_pos k)
  simp [u64_is_power_of_two, h1, two_pow_and_pred]

theorem align_down_raw_two_pow (addr k : Nat) (ha : addr < U64)
    (hk : k ≤ 64) :
    align_down_raw addr (2 ^ k) = 2 ^ k * (addr / 2 ^ k) := by
  have hkle : (2 : Nat) ^ k ≤ 2 ^ 64 := Nat.pow_le_pow_right (by omega) hk
  have hsplit : (2 : Nat) ^ (64 - k) * 2 ^ k = 2 ^ 64 := by
    rw [← pow_add]
    congr 1
    omega
  have hmask : (U64 - 1) - (2 ^ k - 1) = (2 ^ (64 - k) - 1) * 2 ^ k := by
    rw [Nat.sub_mul, one_mul, hsplit]
    have h0 : (0 : Nat) < 2 ^ k := Nat.two_pow_pos k
    simp only [U64]
    omega
  rw [align_down_raw, hmask, ← Nat.shiftLeft_eq,
    show 2 ^ k * (addr / 2 ^ k) = (addr >>> k) <<< k by
      rw [Nat.shiftRight_eq_div_pow, Nat.shiftLeft_eq, mul_comm]]
  apply Nat.eq_of_testBit_eq
  intro i
  rw [Nat.testBit_and, Nat.testBit_shiftLeft, Nat.testBit_shiftLeft,
    Nat.testBit_shiftRight, Nat.testBit_two_pow_sub_one]
  by_cases hik : k ≤ i
  · have hki : k + (i - k) = i := by omega
    rw [hki]
    by_cases hi64 : i < 64
    · have : i - k < 64 - k := by omega
      simp [hik, this]
    · have hbit : addr.testBit i = false :=
        Nat.testBit_lt_two_pow
          (lt_of_lt_of_le ha (Nat.pow_le_pow_right (by omega) (by omega)))
      simp [hbit]
  · simp [hik]

theorem or_two_pow_sub_one (addr k : Nat) :
    addr ||| (2 ^ k - 1) = 2 ^ k * (addr / 2 ^ k) + (2 ^ k - 1) := by
  have hb : 2 ^ k - 1 < 2 ^ k := by
    have := Nat.two_pow_pos k
    omega
  apply Nat.eq_of_testBit_eq
  intro i
  rw [Nat.testBit_or, Nat.testBit_mul_pow_two_add _ hb i,
    Nat.testBit_two_pow_sub_one]
  by_cases hik : i < k
  · simp [hik, Nat.testBit_two_pow_sub_one]
  · have hdiv : (addr / 2 ^ k).testBit (i - k) = addr.testBit i := by
      rw [← Nat.shiftRight_eq_div_pow, Nat.testBit_shiftRight]
      congr 1
      omega
    simp [hik, hdiv]

/-- C6: for every 64-bit address and every power-of-two `u64` alignment
`2 ^ k`, `align_down` succeeds with a multiple of the alignment that is
at most the address, and `align_up` succeeds with a multiple of the
alignment that is at least the address whenever the rounded-up value
does not overflow 64 bits. -/
theorem align_up_down_props (addr k : Nat) (ha : addr < U64)
    (hk : k < 64) :
    ∃ d u, align_down addr (2 ^ k) = some d ∧
      align_up addr (2 ^ k) = some u ∧
      d ≤ addr ∧ 2 ^ k ∣ d ∧ 2 ^ k ∣ u ∧
      (addr + (2 ^ k - 1) < U64 → addr ≤ u) := by
  have hpow := u64_is_power_of_two_two_pow k
  have hdvdU : (2 : Nat) ^ k ∣ U64 := by
    simp only [U64]
    exact pow_dvd_pow 2 (by omega)
  have hpos : (0 : Nat) < 2 ^ k := Nat.two_pow_pos k
  have hdm := Nat.div_add_mod addr (2 ^ k)
  refine ⟨align_down_raw addr (2 ^ k), align_up_raw addr (2 ^ k),
    by rw [align_down, if_pos hpow],
    by rw [align_up, if_pos hpow], ?_, ?_, ?_, ?_⟩
  · exact Nat.and_le_left
  · rw [align_down_raw_two_pow addr k ha (by omega)]
    exact Dvd.intro _ rfl
  · rw [align_up_raw]
    simp only [and_two_pow_sub_one_eq_mod]
    by_cases hal : addr % 2 ^ k = 0
    · simpa [hal] using Nat.dvd_iff_mod_eq_zero.mpr hal
    · have hal' : (addr % 2 ^ k == 0) = false := by
        simp [hal]
      rw [if_neg (by simp [hal])]
      rw [or_two_pow_sub_one]
      rw [(Nat.dvd_mod_iff hdvdU)]
      have : 2 ^ k * (addr / 2 ^ k) + (2 ^ k - 1) + 1 =
          2 ^ k * (addr / 2 ^ k + 1) := by
        have := Nat.two_pow_pos k
        ring_nf
        omega
      rw [this]
      exact Dvd.intro _ rfl
  · intro hno
    rw [align_up_raw]
    simp only [and_two_pow_sub_one_eq_mod]
    by_cases hal : addr % 2 ^ k = 0
    · simp [hal]
    · rw [if_neg (by simp [hal])]
      rw [or_two_pow_sub_one]
      have hval : 2 ^ k * (addr / 2 ^ k) + (2 ^ k - 1) + 1 < U64 := by
        have hr : 1 ≤ addr % 2 ^ k := Nat.pos_iff_ne_zero.mpr hal
        have hrlt : addr % 2 ^ k < 2 ^ k := Nat.mod_lt _ hpos
        omega
      rw [Nat.mod_eq_of_lt hval]
      have hrlt : addr % 2 ^ k < 2 ^ k := Nat.mod_lt _ hpos
      omega

theorem align_up_down_props_witness :
    (37 : Nat) < U64 ∧ (3 : Nat) < 64 ∧
    (∃ d u, align_down 37 (2 ^ 3) = some d ∧
      align_up 37 (2 ^ 3) = some u ∧
      d ≤ 37 ∧ 2 ^ 3 ∣ d ∧ 2 ^ 3 ∣ u ∧
      (37 + (2 ^ 3 - 1) < U64 → 37 ≤ u)) :=
  ⟨by decide, by decide, align_up_down_props 37 3 (by decide) (by decide)⟩

/-!  The page abstraction, `src/memory/paging/page.rs`.  The `PageSize`
marker types are a closed set of three sizes; `Page<S>` wraps a
`VirtAddr`, itself a wrapper over `u64`. -/

/-- The closed set of page-size markers `Size4KiB`, `Size2MiB`,
`Size1GiB` of `src/memory/paging/page.rs`. -/
inductive PageSizeTy where
  | Size4KiB
  | Size2MiB
  | Size1GiB
deriving DecidableEq, Repr

/-- The associated constant `SIZE` of each marker
(`Size2MiB = 512 * 4KiB`, `Size1GiB = 512 * 2MiB`). -/
def PageSizeTy.SIZE : PageSizeTy → Nat
  | .Size4KiB => 4096
  | .Size2MiB => 4096 * 512
  | .Size1GiB => 4096 * 512 * 512

/-- Each page size as its exponent of two. -/
def PageSizeTy.sizeLog : PageSizeTy → Nat
  | .Size4KiB => 12
  | .Size2MiB => 21
  | .Size1GiB => 30

theorem PageSizeTy.size_eq_two_pow (S : PageSizeTy) :
    S.SIZE = 2 ^ S.sizeLog := by
  cases S <;> rfl

theorem PageSizeTy.sizeLog_le (S : PageSizeTy) : S.sizeLog ≤ 64 := by
  cases S <;> simp [PageSizeTy.sizeLog]

theorem PageSizeTy.size_pos (S : PageSizeTy) : 0 < S.SIZE := by
  cases S <;> simp [PageSizeTy.SIZE]

/-- The error type of `src/memory/utils/mod.rs` used by the fallible
page constructor. -/
inductive MemError where
  | AddressNotAligned
deriving DecidableEq, Repr

/-- Modelled from the spec: `VirtAddr::is_aligned` lives in
`src/memory/utils/addr.rs`, which is not among the provided sources;
spec section 4.1 defines it as testing `addr mod n == 0`. -/
def VirtAddr.is_aligned (addr n : Nat) : Bool :=
  addr % n == 0

/-- A page of size `S`: a start address aligned to `S.SIZE`
(`struct Page<S>` of `src/memory/paging/page.rs`). -/
structure Page (S : PageSizeTy) where
  start_address : Nat
deriving DecidableEq, Repr

/-- The constructor `Page::containing_address` (lines 82-88): align the
address down to the page size.  `VirtAddr::align_down` delegates to the
alignment kernel; the power-of-two assert always passes because
`S.SIZE` is a power of two, so the assert-free body is used. -/
def Page.containing_address (S : PageSizeTy) (addr : Nat) : Page S :=
  ⟨align_down_raw addr S.SIZE⟩

/-- The fallible constructor `Page::from_start_address` (lines 73-79). -/
def Page.from_start_address (S : PageSizeTy) (addr : Nat) :
    Except MemError (Page S) :=
  if !(VirtAddr.is_aligned addr S.SIZE) then .error .AddressNotAligned
  else .ok (Page.containing_address S addr)

/-- The `impl Add<u64> for Page<S>` (lines 119-124): move forward by
`n` whole pages; the underlying `u64` address addition wraps (spec
section 4.1: native 64-bit wraparound). -/
def Page.add {S : PageSizeTy} (p : Page S) (n : Nat) : Page S :=
  Page.containing_address S ((p.start_address + n * S.SIZE) % U64)

theorem align_down_raw_size (S : PageSizeTy) (a : Nat) (ha : a < U64) :
    align_down_raw a S.SIZE = S.SIZE * (a / S.SIZE) := by
  rw [S.size_eq_two_pow]
  exact align_down_raw_two_pow a S.sizeLog ha S.sizeLog_le

theorem containing_address_of_aligned (S : PageSizeTy) (a : Nat)
    (hal : a % S.SIZE = 0) (ha : a < U64) :
    Page.containing_address S a = ⟨a⟩ := by
  rw [Page.containing_address, align_down_raw_size S a ha,
    Nat.mul_div_cancel' (Nat.dvd_of_mod_eq_zero hal)]

/-- C7: `Page::from_start_address` succeeds exactly on addresses that
are multiples of the page size and otherwise fails with
`AddressNotAligned`; in particular, for 4 KiB pages address `0x1000`
succeeds and `0x1001` fails. -/
theorem from_start_address_spec (S : PageSizeTy) (a : Nat) :
    ((Page.from_start_address S a).isOk = true ↔ a % S.SIZE = 0) ∧
    (a % S.SIZE ≠ 0 →
      Page.from_start_address S a = .error .AddressNotAligned) ∧
    Page.from_start_address .Size4KiB 0x1000 = .ok ⟨0x1000⟩ ∧
    Page.from_start_address .Size4KiB 0x1001 =
      .error .AddressNotAligned := by
  refine ⟨?_, ?_, by rfl, by rfl⟩
  · by_cases h : a % S.SIZE = 0 <;>
      simp [Page.from_start_address, VirtAddr.is_aligned, h, Except.isOk,
        Except.toBool]
  · intro h
    simp [Page.from_start_address, VirtAddr.is_aligned, h]

theorem from_start_address_spec_witness :
    (((Page.from_start_address .Size2MiB 4096).isOk = true ↔
        4096 % PageSizeTy.SIZE .Size2MiB = 0) ∧
     (4096 % PageSizeTy.SIZE .Size2MiB ≠ 0 →
       Page.from_start_address .Size2MiB 4096 =
         .error .AddressNotAligned) ∧
     Page.from_start_address .Size4KiB 0x1000 = .ok ⟨0x1000⟩ ∧
     Page.from_start_address .Size4KiB 0x1001 =
       .error .AddressNotAligned) :=
  from_start_address_spec .Size2MiB 4096

/-- C8: the page returned by `Page::containing_address` contains the
address: its start address is at most `a`, and `a` lies strictly below
start plus the page size. -/
theorem containing_address_bounds (S : PageSizeTy) (a : Nat)
    (ha : a < U64) :
    (Page.containing_address S a).start_address ≤ a ∧
    a < (Page.containing_address S a).start_address + S.SIZE := by
  rw [Page.containing_address, align_down_raw_size S a ha]
  have hdm := Nat.div_add_mod a S.SIZE
  have hlt : a % S.SIZE < S.SIZE := Nat.mod_lt _ S.size_pos
  constructor
  · simp only
    omega
  · simp only
    omega

theorem containing_address_bounds_witness :
    (0x1234 : Nat) < U64 ∧
    ((Page.containing_address .Size4KiB 0x1234).start_address ≤ 0x1234 ∧
      0x1234 < (Page.containing_address .Size4KiB 0x1234).start_address +
        PageSizeTy.SIZE .Size4KiB) :=
  ⟨by decide, containing_address_bounds .Size4KiB 0x1234 (by decide)⟩

/-- The range `PageRangeInclusive<S>` (lines 153-161); the Rust field
`end` is named `stop` because `end` is a Lean keyword. -/
structure PageRangeInclusive (S : PageSizeTy) where
  start : Page S
  stop : Page S
deriving DecidableEq, Repr

/-- The range `PageRange<S>` (lines 193-201), exclusive upper bound. -/
structure PageRange (S : PageSizeTy) where
  start : Page S
  stop : Page S
deriving DecidableEq, Repr

/-- The `Iterator::next` of `PageRangeInclusive` (lines 170-182):
yield `start` and advance it by one page while `start <= end` (the
derived `Ord` on `Page` compares start addresses). -/
def PageRangeInclusive.next {S : PageSizeTy} (r : PageRangeInclusive S) :
    Option (Page S × PageRangeInclusive S) :=
  if r.start.start_address ≤ r.stop.start_address then
    some (r.start, ⟨r.start.add 1, r.stop⟩)
  else none

/-- The `Iterator::next` of `PageRange` (lines 210-222): yield `start`
and advance it by one page while `start < end`. -/
def PageRange.next {S : PageSizeTy} (r : PageRange S) :
    Option (Page S × PageRange S) :=
  if r.start.start_address < r.stop.start_address then
    some (r.start, ⟨r.start.add 1, r.stop⟩)
  else none

/-- Collect at most `fuel` elements from the inclusive iterator:
`some l` means the iterator terminated (returned `none`) after yielding
exactly the pages of `l`, using at most `fuel` yields; `none` means the
iterator was still running after `fuel` yields. -/
def PageRangeInclusive.collect {S : PageSizeTy} (fuel : Nat)
    (r : PageRangeInclusive S) : Option (List (Page S)) :=
  match PageRangeInclusive.next r with
  | none => some []
  | some (p, r') =>
    match fuel with
    | 0 => none
    | f + 1 => (PageRangeInclusive.collect f r').map (fun l => p :: l)

/-- Collect at most `fuel` elements from the half-open iterator. -/
def PageRange.collect {S : PageSizeTy} (fuel : Nat) (r : PageRange S) :
    Option (List (Page S)) :=
  match PageRange.next r with
  | none => some []
  | some (p, r') =>
    match fuel with
    | 0 => none
    | f + 1 => (PageRange.collect f r').map (fun l => p :: l)

theorem pageRange_collect_none {S : PageSizeTy} (fuel : Nat)
    (r : PageRange S) (h : PageRange.next r = none) :
    PageRange.collect fuel r = some [] := by
  rw [PageRange.collect, h]

theorem pageRange_collect_step {S : PageSizeTy} (f : Nat)
    (r : PageRange S) (p : Page S) (r' : PageRange S)
    (h : PageRange.next r = some (p, r')) :
    PageRange.collect (f + 1) r =
      (PageRange.collect f r').map (fun l => p :: l) := by
  rw [PageRange.collect, h]

theorem pageRangeInclusive_collect_none {S : PageSizeTy} (fuel : Nat)
    (r : PageRangeInclusive S) (h : PageRangeInclusive.next r = none) :
    PageRangeInclusive.collect fuel r = some [] := by
  rw [PageRangeInclusive.collect, h]

theorem pageRangeInclusive_collect_step {S : PageSizeTy} (f : Nat)
    (r : PageRangeInclusive S) (p : Page S) (r' : PageRangeInclusive S)
    (h : PageRangeInclusive.next r = some (p, r')) :
    PageRangeInclusive.collect (f + 1) r =
      (PageRangeInclusive.collect f r').map (fun l => p :: l) := by
  rw [PageRangeInclusive.collect, h]

theorem page_add_one_of_aligned (S : PageSizeTy) (s : Nat)
    (hal : s % S.SIZE = 0) (hlt : s + S.SIZE < U64) :
    (Page.mk (S := S) s).add 1 = ⟨s + S.SIZE⟩ := by
  rw [Page.add]
  simp only [one_mul]
  rw [Nat.mod_eq_of_lt hlt]
  exact containing_address_of_aligned S (s + S.SIZE)
    (by rw [Nat.add_mod_right]; exact hal) hlt

theorem pageRange_collect_aligned (S : PageSizeTy) (n : Nat) :
    ∀ s, s % S.SIZE = 0 → s + n * S.SIZE < U64 →
      PageRange.collect n ⟨⟨s⟩, ⟨s + n * S.SIZE⟩⟩ =
        some ((List.range n).map
          (fun i => Page.mk (S := S) (s + i * S.SIZE))) := by
  induction n with
  | zero =>
    intro s _ _
    rw [pageRange_collect_none]
    · simp
    · rw [PageRange.next]
      simp
  | succ n ih =>
    intro s hal hlt
    have hpos := S.size_pos
    have hSle : S.SIZE ≤ (n + 1) * S.SIZE :=
      Nat.le_mul_of_pos_left _ (Nat.succ_pos n)
    have hnext : PageRange.next (S := S)
        ⟨⟨s⟩, ⟨s + (n + 1) * S.SIZE⟩⟩ =
        some (⟨s⟩, ⟨⟨s + S.SIZE⟩, ⟨s + (n + 1) * S.SIZE⟩⟩) := by
      rw [PageRange.next, if_pos (by simp only; omega)]
      rw [page_add_one_of_aligned S s hal (by omega)]
    rw [pageRange_collect_step n _ _ _ hnext]
    have harg : s + S.SIZE + n * S.SIZE = s + (n + 1) * S.SIZE := by ring
    have ih' := ih (s + S.SIZE) (by rw [Nat.add_mod_right]; exact hal)
      (by rw [harg]; exact hlt)
    rw [harg] at ih'
    rw [ih']
    simp only [Option.map_some, List.range_succ_eq_map, List.map_cons,
      List.map_map]
    refine congrArg some ?_
    show Page.mk (S := S) s ::
        List.map (fun i => Page.mk (S := S) (s + S.SIZE + i * S.SIZE))
          (List.range n) = _
    congr 1
    · simp
    · congr 1
      funext i
      simp only [Function.comp]
      congr 1
      rw [Nat.succ_eq_add_one]
      ring

theorem pageRangeInclusive_collect_aligned (S : PageSizeTy) (n : Nat) :
    ∀ s, s % S.SIZE = 0 → s + n * S.SIZE + S.SIZE < U64 →
      PageRangeInclusive.collect (n + 1) ⟨⟨s⟩, ⟨s + n * S.SIZE⟩⟩ =
        some ((List.range (n + 1)).map
          (fun i => Page.mk (S := S) (s + i * S.SIZE))) := by
  induction n with
  | zero =>
    intro s hal hlt
    have hz : (0 : Nat) * S.SIZE = 0 := Nat.zero_mul _
    have hpos := S.size_pos
    have hnext : PageRangeInclusive.next (S := S)
        ⟨⟨s⟩, ⟨s + 0 * S.SIZE⟩⟩ =
        some (⟨s⟩, ⟨⟨s + S.SIZE⟩, ⟨s + 0 * S.SIZE⟩⟩) := by
      rw [PageRangeInclusive.next, if_pos (by simp only; omega)]
      rw [page_add_one_of_aligned S s hal (by omega)]
    rw [pageRangeInclusive_collect_step 0 _ _ _ hnext]
    rw [pageRangeInclusive_collect_none]
    · simp [List.range_succ]
    · rw [PageRangeInclusive.next, if_neg (by simp only; omega)]
  | succ n ih =>
    intro s hal hlt
    have hpos := S.size_pos
    have hSle : S.SIZE ≤ (n + 1) * S.SIZE :=
      Nat.le_mul_of_pos_left _ (Nat.succ_pos n)
    have hnext : PageRangeInclusive.next (S := S)
        ⟨⟨s⟩, ⟨s + (n + 1) * S.SIZE⟩⟩ =
        some (⟨s⟩, ⟨⟨s + S.SIZE⟩, ⟨s + (n + 1) * S.SIZE⟩⟩) := by
      rw [PageRangeInclusive.next, if_pos (by simp only; omega)]
      rw [page_add_one_of_aligned S s hal (by omega)]
    rw [pageRangeInclusive_collect_step (n + 1) _ _ _ hnext]
    have harg : s + S.SIZE + n * S.SIZE = s + (n + 1) * S.SIZE := by ring
    have ih' := ih (s + S.SIZE) (by rw [Nat.add_mod_right]; exact hal)
      (by rw [harg]; exact hlt)
    rw [harg] at ih'
    rw [ih']
    simp only [Option.map_some']
    refine congrArg some ?_
    show Page.mk (S := S) s ::
        List.map (fun i => Page.mk (S := S) (s + S.SIZE + i * S.SIZE))
          (List.range (n + 1)) = _
    rw [List.range_succ_eq_map (n + 1), List.map_cons, List.map_map]
    congr 1
    · simp
    · congr 1
      funext i
      simp only [Function.comp]
      congr 1
      rw [Nat.succ_eq_add_one]
      ring

theorem page_mk_range_nodup (S : PageSizeTy) (s m : Nat) :
    (((List.range m).map
      (fun i => Page.mk (S := S) (s + i * S.SIZE)))).Nodup := by
  have hpos := S.size_pos
  refine List.Nodup.map ?_ (List.nodup_range m)
  intro a b hab
  have h := congrArg Page.start_address hab
  simp only at h
  exact Nat.eq_of_mul_eq_mul_right hpos (by omega)

/-- C9 (amended): for aligned 64-bit bounds, the half-open iterator
always yields each page of `[start, end)` exactly once and stops at the
bound; the inclusive iterator does the same for `[start, end]` provided
`end` is not the topmost page of the address space
(`end + SIZE < 2^64`) — at the topmost page the increment past the
bound wraps to page 0 and iteration continues (see the
counterexample). -/
theorem page_range_iteration (S : PageSizeTy) (s e : Nat)
    (hs : s % S.SIZE = 0) (he : e % S.SIZE = 0)
    (_hs64 : s < U64) (he64 : e < U64) :
    (∃ l, PageRange.collect ((e - s) / S.SIZE)
        ⟨⟨s⟩, ⟨e⟩⟩ = some l ∧ l.Nodup ∧
       l = (List.range ((e - s) / S.SIZE)).map
         (fun i => Page.mk (S := S) (s + i * S.SIZE))) ∧
    (e + S.SIZE < U64 →
      ∃ l, PageRangeInclusive.collect
          (if s ≤ e then (e - s) / S.SIZE + 1 else 0)
          ⟨⟨s⟩, ⟨e⟩⟩ = some l ∧ l.Nodup ∧
        l = if s ≤ e then
              (List.range ((e - s) / S.SIZE + 1)).map
                (fun i => Page.mk (S := S) (s + i * S.SIZE))
            else []) := by
  have hpos := S.size_pos
  constructor
  · by_cases hse : s ≤ e
    · have hdvd : S.SIZE ∣ (e - s) :=
        Nat.dvd_sub' (Nat.dvd_of_mod_eq_zero he) (Nat.dvd_of_mod_eq_zero hs)
      have hn : e = s + (e - s) / S.SIZE * S.SIZE := by
        rw [Nat.div_mul_cancel hdvd]
        omega
      refine ⟨_, ?_, page_mk_range_nodup S s _, rfl⟩
      have := pageRange_collect_aligned S ((e - s) / S.SIZE) s hs
        (by rw [← hn]; exact he64)
      rw [← hn] at this
      exact this
    · have h0 : (e - s) / S.SIZE = 0 := by
        have : e - s = 0 := by omega
        rw [this, Nat.zero_div]
      rw [h0]
      refine ⟨[], ?_, List.nodup_nil, by simp⟩
      apply pageRange_collect_none
      rw [PageRange.next, if_neg (by simp only; omega)]
  · intro htop
    by_cases hse : s ≤ e
    · have hdvd : S.SIZE ∣ (e - s) :=
        Nat.dvd_sub' (Nat.dvd_of_mod_eq_zero he) (Nat.dvd_of_mod_eq_zero hs)
      have hn : e = s + (e - s) / S.SIZE * S.SIZE := by
        rw [Nat.div_mul_cancel hdvd]
        omega
      rw [if_pos hse]
      refine ⟨_, ?_, page_mk_range_nodup S s _, by rw [if_pos hse]⟩
      have := pageRangeInclusive_collect_aligned S ((e - s) / S.SIZE) s hs
        (by rw [← hn]; exact htop)
      rw [← hn] at this
      exact this
    · rw [if_neg hse]
      refine ⟨[], ?_, List.nodup_nil, by rw [if_neg hse]⟩
      apply pageRangeInclusive_collect_none
      rw [PageRangeInclusive.next, if_neg (by simp only; omega)]

theorem page_range_iteration_witness :
    (0 : Nat) % PageSizeTy.SIZE .Size4KiB = 0 ∧
    (0x3000 : Nat) % PageSizeTy.SIZE .Size4KiB = 0 ∧
    ((0 : Nat) < U64 ∧ (0x3000 : Nat) < U64) ∧
    ((∃ l, PageRange.collect
        ((0x3000 - 0) / PageSizeTy.SIZE .Size4KiB)
        ⟨⟨0⟩, ⟨0x3000⟩⟩ = some l ∧ l.Nodup ∧
       l = (List.range ((0x3000 - 0) / PageSizeTy.SIZE .Size4KiB)).map
         (fun i => Page.mk (S := .Size4KiB)
           (0 + i * PageSizeTy.SIZE .Size4KiB))) ∧
     (0x3000 + PageSizeTy.SIZE .Size4KiB < U64 →
      ∃ l, PageRangeInclusive.collect
          (if (0:Nat) ≤ 0x3000 then
            (0x3000 - 0) / PageSizeTy.SIZE .Size4KiB + 1 else 0)
          ⟨⟨0⟩, ⟨0x3000⟩⟩ = some l ∧ l.Nodup ∧
        l = if (0:Nat) ≤ 0x3000 then
              (List.range
                ((0x3000 - 0) / PageSizeTy.SIZE .Size4KiB + 1)).map
                (fun i => Page.mk (S := .Size4KiB)
                  (0 + i * PageSizeTy.SIZE .Size4KiB))
            else [])) :=
  ⟨by decide, by decide, ⟨by decide, by decide⟩,
    page_range_iteration .Size4KiB 0 0x3000 (by decide) (by decide)
      (by decide) (by decide)⟩

/-- C9 counterexample: take the inclusive range whose single page is
the topmost 4 KiB page of the address space (start = end =
`2^64 - 4096`).  The claim says iteration stops once the bound is
reached, i.e. after that one page is yielded.  Instead, the advance
past the bound wraps to page 0, the new start still compares at most
the bound, and the iterator yields again — the walk restarts from the
bottom of the address space, so iteration does not terminate at the
bound (collecting with exactly the expected one-yield budget fails). -/
theorem pageRangeInclusive_top_wraparound :
    PageRangeInclusive.next (S := .Size4KiB)
        ⟨⟨U64 - 4096⟩, ⟨U64 - 4096⟩⟩ =
      some (⟨U64 - 4096⟩, ⟨⟨0⟩, ⟨U64 - 4096⟩⟩) ∧
    PageRangeInclusive.next (S := .Size4KiB) ⟨⟨0⟩, ⟨U64 - 4096⟩⟩ =
      some (⟨0⟩, ⟨⟨4096⟩, ⟨U64 - 4096⟩⟩) ∧
    PageRangeInclusive.collect (S := .Size4KiB) 1
        ⟨⟨U64 - 4096⟩, ⟨U64 - 4096⟩⟩ = none := by
  refine ⟨?_, ?_, ?_⟩ <;> decide

/-- Write `v` at index `i` of the staging buffer `tmp`; `none` embeds
the Rust panic on an out-of-bounds array index `tmp[i]`. -/
def bufWrite (tmp : List Nat) (i v : Nat) : Option (List Nat) :=
  if i < tmp.length then some (tmp.set i v) else none

/-- State of the console helper `output_string`: the 32-element UTF-16
staging buffer `tmp`, the index `in_use`, and the log of buffers passed
to the firmware output call so far. -/
structure OutState where
  tmp : List Nat
  inUse : Nat
  flushed : List (List Nat)
deriving DecidableEq, Repr

/-- One iteration of the character loop of `output_string`
(`src/efi.rs` lines 265-287): inject a carriage return (13) before a
line feed (`c = 10`), store the character, and on `in_use` reaching
`tmp.len() - 2` null-terminate, flush and reset the index. -/
def outputChar (s : OutState) (c : Nat) : Option OutState := do
  let (tmp1, i1) ←
    if c = 10 then do
      let t ← bufWrite s.tmp s.inUse 13
      pure (t, s.inUse + 1)
    else
      pure (s.tmp, s.inUse)
  let tmp2 ← bufWrite tmp1 i1 c
  let i2 := i1 + 1
  if i2 = tmp2.length - 2 then do
    let tmp3 ← bufWrite tmp2 i2 0
    pure ⟨tmp3, 0, s.flushed ++ [tmp3]⟩
  else
    pure ⟨tmp2, i2, s.flushed⟩

/-- The console helper `output_string` (`src/efi.rs` lines 250-295),
on the UTF-16 code units of the input string: run the character loop
from a zeroed 32-element buffer, then null-terminate and flush any
leftover partial buffer. -/
def efi_output_string (units : List Nat) : Option OutState := do
  let s ← units.foldlM outputChar ⟨List.replicate 32 0, 0, []⟩
  if s.inUse > 0 then do
    let t ← bufWrite s.tmp s.inUse 0
    pure ⟨t, s.inUse, s.flushed ++ [t]⟩
  else
    pure s

/-- The failing input for C10: 29 ASCII characters, then a line feed,
then two more characters (a 32-character string). -/
def c10FailingInput : List Nat := List.replicate 29 97 ++ [10, 98, 99]

/-- C10: the claim says every buffer write of `output_string` stays
within the 32-element staging buffer.  It does not: the flush check
compares `in_use` for equality with 30, and the carriage-return
injection can step `in_use` from 29 straight to 31, skipping the
flush; two characters later the loop writes `tmp[32]`, out of bounds.
On `c10FailingInput` the embedded helper reaches that out-of-bounds
write (the Rust code panics there). -/
theorem output_string_buffer_overflow :
    efi_output_string c10FailingInput = none := by
  decide
